import Mathlib

/-!
Shallow embedding of `src/walle/ids/kitsune.py` (the KitNET anomaly-detection
engine: the `KitNET` orchestrator, the `dA` denoising autoencoder and the
`corClust` incremental correlation clusterer), together with theorems that
settle the frozen claims about it.

Modelling conventions:
* Python floats are modelled as exact rationals (`ℚ`).  Vectors and matrices
  are total functions `ℕ → ℚ` and `ℕ → ℕ → ℚ` together with an ambient length;
  entries beyond the ambient length are never read by the embedded code paths.
* The transcendental / random primitives that numpy supplies
  (`np.exp`, `np.sqrt`, `np.tanh`, `np.round`, the MT19937(1234) uniform
  stream consumed by `np.random.RandomState(1234).uniform`, the Bernoulli
  corruption mask, and scipy's `linkage`+`to_tree` dendrogram construction)
  are gathered in a record `Prims` and every embedded function is
  parametrised by it.  All theorems hold for every choice of primitives, or
  take the needed analytic fact (for instance that `sqrt` maps nonnegatives
  to nonnegatives) as an explicit hypothesis.
* numpy's `-np.Inf` / `np.Inf` initial values of `norm_max` / `norm_min` are
  modelled by `Option ℚ` with `none` for the infinite initial value: the
  update `norm_max[x > norm_max] = x[...]` always fires on a `none` entry,
  exactly as every float is `> -inf`.
* Fallible Python code (a `raise`, or a library call that raises) is embedded
  in `Except String`.  File output (`pickle.dump` of the normalization
  snapshot in `KitNET.train`) does not touch the engine state and is omitted.
-/

/-- A dendrogram as scipy's `to_tree` returns it: a binary merge tree whose
leaves carry the ids of the original observations.  `corClust.__breakClust__`
only reads `count`, `pre_order`, `get_left` and `get_right`, which the model
provides below. -/
inductive DTree where
  | leaf : ℕ → DTree
  | node : DTree → DTree → DTree
deriving DecidableEq

/-- scipy `ClusterNode.pre_order()`: the ids of the original observations under
this node, left subtree first. -/
def DTree.preOrder : DTree → List ℕ
  | .leaf i => [i]
  | .node l r => l.preOrder ++ r.preOrder

/-- scipy `ClusterNode.count`: the number of original observations under the
node, which is exactly the length of its pre-order leaf list. -/
def DTree.count (t : DTree) : ℕ := t.preOrder.length

/-- The numeric primitives supplied by numpy / scipy, abstracted.  `u` is the
uniform stream of `np.random.RandomState(1234)` (every `dA` seeds its own
generator with the constant 1234, so every `dA` reads the very same stream);
`rnd` is numpy's round-half-to-even; `corrupt` the Bernoulli corruption mask
application (never drawn by `KitNET`, which builds all its autoencoders with
`corruption_level=0`); `linkTree` is `to_tree(linkage(condensed))`, fed the
number of observations and the condensed distance vector. -/
structure Prims where
  u : ℕ → ℚ
  exp : ℚ → ℚ
  sqrt : ℚ → ℚ
  tanh : ℚ → ℚ
  rnd : ℚ → ℚ
  corrupt : (ℕ → ℚ) → (ℕ → ℚ)
  linkTree : ℕ → List ℚ → DTree

/-- Sum of `f 0 + ... + f (k-1)`, the model of a numpy dot/sum over a length-`k`
axis. -/
def sumR (k : ℕ) (f : ℕ → ℚ) : ℚ := ((List.range k).map f).sum

/-- The source's `sigmoid(x) = 1. / (1 + np.exp(-x))`. -/
def sigmoid (P : Prims) (t : ℚ) : ℚ := 1 / (1 + P.exp (-t))

/-- The source's `quantize(x, k) = np.round(np.multiply(2**k - 1, x)) / (2**k - 1)`,
elementwise on one scalar. -/
def npQuantize (P : Prims) (k : ℕ) (x : ℚ) : ℚ :=
  let n : ℚ := 2 ^ k - 1
  P.rnd (n * x) / n

/-- One scalar of `squeeze_features(fv, precision) = np.around(fv, decimals=precision)`:
round to `p` decimal digits. -/
def npAround (P : Prims) (p : ℕ) (x : ℚ) : ℚ := P.rnd (x * 10 ^ p) / 10 ^ p

/-- The largest element of a list of rationals, `0` for the empty list (numpy's
`np.max` raises on an empty array; the embedded call sites always pass a
nonempty one). -/
def listMax : List ℚ → ℚ
  | [] => 0
  | x :: xs => xs.foldl max x

/-- All entries `|tanh (W i j)|` of an `nv × nh` matrix, row-major. -/
def absTanhEntries (P : Prims) (nv nh : ℕ) (W : ℕ → ℕ → ℚ) : List ℚ :=
  ((List.range nv).map (fun i => (List.range nh).map (fun j => |P.tanh (W i j)|))).flatten

/-- The source's `quantize_weights(w, k)` on an `nv × nh` matrix:
`x = tanh(w); q = x / max(|x|) * 0.5 + 0.5; 2 * quantize(q, k) - 1`. -/
def quantizeWeightsM (P : Prims) (k nv nh : ℕ) (W : ℕ → ℕ → ℚ) : ℕ → ℕ → ℚ :=
  let m := listMax (absTanhEntries P nv nh W)
  fun i j => 2 * npQuantize P k (P.tanh (W i j) / m * (1 / 2) + 1 / 2) - 1

/-- The source's `quantize_weights` on a length-`k` vector (used for the bias
vectors). -/
def quantizeWeightsV (P : Prims) (kbits len : ℕ) (v : ℕ → ℚ) : ℕ → ℚ :=
  let m := listMax ((List.range len).map (fun i => |P.tanh (v i)|))
  fun i => 2 * npQuantize P kbits (P.tanh (v i) / m * (1 / 2) + 1 / 2) - 1

/-- `dA_params`: the (post-construction immutable) configuration of one
autoencoder.  `hiddenRatio = some r` makes `dA.__init__` overwrite `n_hidden`
with `ceil(n_visible * r)`.  `quantize = some (w_bits, a_bits)` carries the
source's `q_wbit, q_abit` pair. -/
structure AEParams where
  n_visible : ℕ
  n_hidden : ℕ
  lr : ℚ
  corruption_level : ℚ
  gracePeriod : ℕ
  hiddenRatio : Option ℚ
  normalize : Bool
  input_precision : Option ℕ
  quantize : Option (ℕ × ℕ)
deriving DecidableEq

/-- The `n_hidden` rewrite `dA.__init__` performs when a hidden ratio is
supplied: `n_hidden = int(np.ceil(n_visible * hiddenRatio))`. -/
def effParams (p : AEParams) : AEParams :=
  match p.hiddenRatio with
  | none => p
  | some r => { p with n_hidden := (Int.ceil ((p.n_visible : ℚ) * r)).toNat }

/-- The mutable state of one `dA` autoencoder.  `norm_max` starts at `-inf`
and `norm_min` at `+inf`, modelled by `none`. -/
structure AEState where
  params : AEParams
  norm_max : ℕ → Option ℚ
  norm_min : ℕ → Option ℚ
  n : ℕ
  W : ℕ → ℕ → ℚ
  hbias : ℕ → ℚ
  vbias : ℕ → ℚ

/-- The initial weight draw of `dA.__init__`: `W` uniform from
`(-1/n_visible, 1/n_visible)` out of the seed-1234 stream (numpy's
`uniform(low, high, size=(nv, nh))` consumes one stream value per entry in
row-major order and maps it affinely onto `[low, high)`), quantized when
quantization is configured.  It depends on nothing but `nv`, `nh` and the
quantization setting, since every `dA` reads the same seeded stream. -/
def dAinitW (P : Prims) (nv nh : ℕ) (qz : Option (ℕ × ℕ)) : ℕ → ℕ → ℚ :=
  let a : ℚ := 1 / (nv : ℚ)
  let W0 : ℕ → ℕ → ℚ := fun i j => -a + 2 * a * P.u (i * nh + j)
  match qz with
  | none => W0
  | some wa => quantizeWeightsM P wa.1 nv nh W0

/-- `dA.__init__(params)`: derive `n_hidden` from the ratio, set the norms to
`∓inf`, zero the observation count, draw the initial `W` (`dAinitW`), and
zero both biases. -/
def dAinit (P : Prims) (p0 : AEParams) : AEState :=
  let p := effParams p0
  { params := p
    norm_max := fun _ => none
    norm_min := fun _ => none
    n := 0
    W := dAinitW P p.n_visible p.n_hidden p.quantize
    hbias := fun _ => 0
    vbias := fun _ => 0 }

/-- One component of the running-max update `norm_max[x > norm_max] = x[...]`:
the `none` entry stands for `-inf`, which every value exceeds. -/
def updMax (x : ℚ) : Option ℚ → Option ℚ
  | none => some x
  | some v => if x > v then some x else some v

/-- One component of the running-min update `norm_min[x < norm_min] = x[...]`. -/
def updMin (x : ℚ) : Option ℚ → Option ℚ
  | none => some x
  | some v => if x < v then some x else some v

/-- The normalization guard `0.0000000000000001` of `dA.train` / `dA.execute`. -/
def epsNorm : ℚ := 1 / 10 ^ 16

/-- One component of the 0-1 normalization `(x - norm_min) / (norm_max - norm_min + ε)`. -/
def normVal (x mn mx : ℚ) : ℚ := (x - mn) / (mx - mn + epsNorm)

/-- Normalize a vector against (already updated) norm bounds.  A `none` bound
is read as `0`.  In the program an unset bound is `±inf` and normalizing
against it yields `(x - inf) / (-inf - inf + ε) = NaN`, which exact rational
arithmetic cannot represent; the default is therefore a modelling fiction,
and no theorem below lets this case be exercised: `dA.train` sets every
bound it then reads, and the only theorem that reasons about the value of an
`execute` score (`plain_lifecycle`) requires `1 ≤ AD_grace`, so every
autoencoder it scores has been trained — all its bounds set — at least once
before the first execute call. -/
def normApply (mn mx : ℕ → Option ℚ) (x : ℕ → ℚ) : ℕ → ℚ :=
  fun i => normVal (x i) ((mn i).getD 0) ((mx i).getD 0)

/-- The `squeeze_features` step shared by `dA.train` and `dA.execute`. -/
def precApply (P : Prims) (pr : Option ℕ) (x : ℕ → ℚ) : ℕ → ℚ :=
  match pr with
  | none => x
  | some p => fun i => npAround P p (x i)

/-- `dA.train(x)`: returns the reconstruction RMSE and the updated state.
Follows the source line by line: bump `n`; update and apply the norms when
normalizing; squeeze precision; corrupt when `corruption_level > 0`; encode,
quantize the activation when configured, decode; take the gradient step on
`W`, `hbias`, `vbias`; re-quantize them when configured; return
`sqrt(mean(L_h2^2))`. -/
def AEtrain (P : Prims) (st : AEState) (x : ℕ → ℚ) : ℚ × AEState :=
  let p := st.params
  let nmax := if p.normalize then fun i => updMax (x i) (st.norm_max i) else st.norm_max
  let nmin := if p.normalize then fun i => updMin (x i) (st.norm_min i) else st.norm_min
  let x1 := if p.normalize then normApply nmin nmax x else x
  let x2 := precApply P p.input_precision x1
  let tx := if p.corruption_level > 0 then P.corrupt x2 else x2
  let y0 : ℕ → ℚ := fun j => sigmoid P (sumR p.n_visible (fun i => tx i * st.W i j) + st.hbias j)
  let y : ℕ → ℚ :=
    match p.quantize with
    | none => y0
    | some wa => fun j => npQuantize P wa.2 (y0 j)
  let z : ℕ → ℚ := fun i => sigmoid P (sumR p.n_hidden (fun j => y j * st.W i j) + st.vbias i)
  let Lh2 : ℕ → ℚ := fun i => x2 i - z i
  let Lh1 : ℕ → ℚ := fun j => sumR p.n_visible (fun i => Lh2 i * st.W i j) * y j * (1 - y j)
  let W1 : ℕ → ℕ → ℚ := fun i j => st.W i j + p.lr * (tx i * Lh1 j + Lh2 i * y j)
  let hb1 : ℕ → ℚ := fun j => st.hbias j + p.lr * Lh1 j
  let vb1 : ℕ → ℚ := fun i => st.vbias i + p.lr * Lh2 i
  let W2 := match p.quantize with
    | none => W1
    | some wa => quantizeWeightsM P wa.1 p.n_visible p.n_hidden W1
  let hb2 := match p.quantize with
    | none => hb1
    | some wa => quantizeWeightsV P wa.1 p.n_hidden hb1
  let vb2 := match p.quantize with
    | none => vb1
    | some wa => quantizeWeightsV P wa.1 p.n_visible vb1
  (P.sqrt (sumR p.n_visible (fun i => Lh2 i ^ 2) / (p.n_visible : ℚ)),
    { st with norm_max := nmax, norm_min := nmin, n := st.n + 1,
              W := W2, hbias := hb2, vbias := vb2 })

/-- `dA.reconstruct(x)`: encode (quantizing the activation when configured)
and decode.  The source's `try/except AttributeError` around the quantize
lookup only tolerates legacy pickles whose params lack the field; the model's
params always carry it. -/
def AEreconstruct (P : Prims) (st : AEState) (x : ℕ → ℚ) : ℕ → ℚ :=
  let p := st.params
  let y0 : ℕ → ℚ := fun j => sigmoid P (sumR p.n_visible (fun i => x i * st.W i j) + st.hbias j)
  let y : ℕ → ℚ :=
    match p.quantize with
    | none => y0
    | some wa => fun j => npQuantize P wa.2 (y0 j)
  fun i => sigmoid P (sumR p.n_hidden (fun j => y j * st.W i j) + st.vbias i)

/-- `dA.execute(x)`: `0.0` inside the grace period, otherwise normalize and
squeeze against the current bounds (no update), reconstruct, and return the
RMSE.  No state is written. -/
def AEexecute (P : Prims) (st : AEState) (x : ℕ → ℚ) : ℚ :=
  if st.n < st.params.gracePeriod then 0
  else
    let x1 := if st.params.normalize then normApply st.norm_min st.norm_max x else x
    let x2 := precApply P st.params.input_precision x1
    let z := AEreconstruct P st x2
    P.sqrt (sumR st.params.n_visible (fun i => (x2 i - z i) ^ 2) / (st.params.n_visible : ℚ))

/-- The `{W, hbias, vbias}` blob `dA.get_params` returns. -/
structure AEParamsBlob where
  W : ℕ → ℕ → ℚ
  hbias : ℕ → ℚ
  vbias : ℕ → ℚ

/-- `dA.get_params()`. -/
def AEgetParams (st : AEState) : AEParamsBlob := ⟨st.W, st.hbias, st.vbias⟩

/-- `dA.set_params(new_param)`: overwrite `W`, `hbias`, `vbias`, nothing else. -/
def AEsetParams (st : AEState) (b : AEParamsBlob) : AEState :=
  { st with W := b.W, hbias := b.hbias, vbias := b.vbias }

/-- The state of `corClust(n)`: the running sums the incremental correlation
clusterer keeps (`c`, `c_r`, `c_rs`, the outer-product accumulator `C`) and
the update count `N`. -/
structure CorClustState where
  n : ℕ
  c : ℕ → ℚ
  c_r : ℕ → ℚ
  c_rs : ℕ → ℚ
  C : ℕ → ℕ → ℚ
  N : ℕ

/-- `corClust.__init__(n)`: all accumulators zero. -/
def corClustInit (n : ℕ) : CorClustState :=
  { n := n, c := fun _ => 0, c_r := fun _ => 0, c_rs := fun _ => 0,
    C := fun _ _ => 0, N := 0 }

/-- `corClust.update(x)`: `N += 1; c += x; c_rt = x - c/N;`
`c_r += c_rt; c_rs += c_rt**2; C += outer(c_rt, c_rt)` — the residual is taken
against the mean of the already-updated sum. -/
def FMupdate (st : CorClustState) (x : ℕ → ℚ) : CorClustState :=
  let N' := st.N + 1
  let c' := fun i => st.c i + x i
  let c_rt := fun i => x i - c' i / (N' : ℚ)
  { st with
    N := N'
    c := c'
    c_r := fun i => st.c_r i + c_rt i
    c_rs := fun i => st.c_rs i + c_rt i ^ 2
    C := fun i j => st.C i j + c_rt i * c_rt j }

/-- The zero guard of `corrDist`: `C_rs_sqrt[C_rs_sqrt == 0] = 1e-100`. -/
def guardZero (q : ℚ) : ℚ := if q = 0 then 1 / 10 ^ 100 else q

/-- `corClust.corrDist()`: `D = 1 - C / outer(sqrt(c_rs), sqrt(c_rs))` with the
zero guard on the denominator and negatives clamped to `0`. -/
def corrDist (P : Prims) (st : CorClustState) : ℕ → ℕ → ℚ :=
  fun i j =>
    let d := 1 - st.C i j / guardZero (P.sqrt (st.c_rs i) * P.sqrt (st.c_rs j))
    if d < 0 then 0 else d

/-- `D[np.triu_indices(n, 1)]`: the strict upper triangle of the distance
matrix in row-major order, the condensed vector handed to `linkage`. -/
def condensedD (P : Prims) (st : CorClustState) : List ℚ :=
  ((List.range st.n).map (fun i =>
    ((List.range st.n).filter (fun j => i < j)).map (fun j => corrDist P st i j))).flatten

/-- `corClust.__breakClust__(dendro, maxClust)`: emit the node's pre-order
leaf list once its count fits, otherwise recurse into both children.  The
leaf fallback in the second branch is unreachable for `1 ≤ maxClust` (a leaf
has count 1); in the source that case would call `get_left()` on a leaf. -/
def breakClust (t : DTree) (maxClust : ℕ) : List (List ℕ) :=
  match t with
  | .leaf i =>
    if (DTree.leaf i).count ≤ maxClust then [(DTree.leaf i).preOrder] else [[i]]
  | .node l r =>
    if (DTree.node l r).count ≤ maxClust then [(DTree.node l r).preOrder]
    else breakClust l maxClust ++ breakClust r maxClust

/-- The error scipy raises when `linkage` receives an empty condensed distance
matrix, which happens exactly when `n < 2` (`np.triu_indices(n, 1)` is then
empty and `scipy.spatial.distance.num_obs_y` rejects the empty vector). -/
def emptyDistanceMsg : String :=
  "ValueError: The number of observations cannot be determined on an empty distance matrix."

/-- `corClust.cluster(maxClust)`: build the condensed distance vector, run
`linkage` + `to_tree` (which fails for `n < 2`), clamp `maxClust` into
`[1, n]`, and break the dendrogram. -/
def FMcluster (P : Prims) (st : CorClustState) (maxClust : Int) : Except String (List (List ℕ)) :=
  let D := condensedD P st
  if st.n < 2 then Except.error emptyDistanceMsg
  else
    let t := P.linkTree st.n D
    let m1 : Int := if maxClust < 1 then 1 else maxClust
    let m2 : ℕ := if (st.n : Int) < m1 then st.n else m1.toNat
    Except.ok (breakClust t m2)

/-- The `{ensemble, output}` parameter blob of `KitNET.get_params`. -/
structure KNParamsBlob where
  ensemble : List AEParamsBlob
  output : AEParamsBlob

/-- The full `KitNET` engine state.  `v = none` is the source's `self.v is
None` (no feature map yet); `outputLayer = none` is the pre-allocation
`self.outputLayer = None`.  `model_path` and the snapshot path only feed the
pickle side channel and are omitted. -/
structure KitState where
  AD_grace_period : ℕ
  FM_grace_period : ℕ
  input_precision : Option ℕ
  m : ℕ
  lr : ℚ
  hr : ℚ
  n : ℕ
  normalize : Bool
  n_trained : ℕ
  n_executed : ℕ
  v : Option (List (List ℕ))
  ensembleLayer : List AEState
  outputLayer : Option AEState
  quantize : Option (ℕ × ℕ)
  FM : CorClustState

/-- The `dA_params` record `KitNET.__createAD__` builds for a cluster of size
`nv`: `n_hidden=0` together with the orchestrator's hidden ratio (which then
derives the real hidden size), `corruption_level=0`, `gracePeriod=0`. -/
def mkAEParams (st : KitState) (nv : ℕ) : AEParams :=
  { n_visible := nv, n_hidden := 0, lr := st.lr, corruption_level := 0,
    gracePeriod := 0, hiddenRatio := some st.hr, normalize := st.normalize,
    input_precision := st.input_precision, quantize := st.quantize }

/-- `KitNET.__createAD__()`: append one autoencoder per cluster of `self.v`
to the ensemble and allocate the output autoencoder over `len(self.v)`
inputs.  Reading `self.v` as `None` would crash the source; the function is
only ever called right after `v` is set. -/
def createAD (P : Prims) (st : KitState) : KitState :=
  match st.v with
  | none => st
  | some vm =>
    { st with
      ensembleLayer := st.ensembleLayer ++ vm.map (fun mp => dAinit P (mkAEParams st mp.length))
      outputLayer := some (dAinit P (mkAEParams st vm.length)) }

/-- The constructor arguments of `KitNET.__init__` (minus `model_path`, which
only names the pickle side channel). -/
structure KNConfig where
  n : ℕ
  max_autoencoder_size : Int
  FM_grace_period : Option ℕ
  AD_grace_period : ℕ
  learning_rate : ℚ
  hidden_rat : ℚ
  feature_map : Option (List (List ℕ))
  normalize : Bool
  input_precision : Option ℕ
  quantize : Option (ℕ × ℕ)

/-- `KitNET.__init__`: default the FM grace period to the AD grace period,
coerce `max_autoencoder_size ≤ 0` to `1`, zero the counters, take the preset
feature map when given (and then allocate the autoencoders at once), and
initialize the feature-mapper accumulator. -/
def mkKitNET (P : Prims) (cfg : KNConfig) : KitState :=
  let st0 : KitState :=
    { AD_grace_period := cfg.AD_grace_period
      FM_grace_period := cfg.FM_grace_period.getD cfg.AD_grace_period
      input_precision := cfg.input_precision
      m := if cfg.max_autoencoder_size ≤ 0 then 1 else cfg.max_autoencoder_size.toNat
      lr := cfg.learning_rate
      hr := cfg.hidden_rat
      n := cfg.n
      normalize := cfg.normalize
      n_trained := 0
      n_executed := 0
      v := cfg.feature_map
      ensembleLayer := []
      outputLayer := none
      quantize := cfg.quantize
      FM := corClustInit cfg.n }
  match cfg.feature_map with
  | none => st0
  | some _ => createAD P st0

/-- The sub-vector `x[v[a]]` handed to ensemble autoencoder `a`. -/
def subVec (x : ℕ → ℚ) (idxs : List ℕ) : ℕ → ℚ :=
  fun k => x (idxs.getD k 0)

/-- `KitNET.train(x)`.  In FM-train mode update the correlation accumulator
and, at the instant `n_trained == FM_grace_period`, derive the feature map
(which can fail for `n < 2`, see `FMcluster`) and allocate the autoencoders.
Otherwise train every ensemble autoencoder on its sub-vector, collect the
RMSE vector `S_l1` (a `np.zeros(len(ensemble))` filled per index, so indices
beyond the filled range read `0`), and train the output autoencoder on it.
The per-step pickle dump of the normalization snapshot writes no engine
state and is omitted.  Calling the ensemble branch with no output layer
would crash the source (`None.train`); it is modelled as an error and is
unreachable through `process`.  Finally `n_trained += 1`. -/
def KNtrain (P : Prims) (st : KitState) (x : ℕ → ℚ) : Except String KitState :=
  if st.n_trained ≤ st.FM_grace_period ∧ st.v = none then
    let st1 := { st with FM := FMupdate st.FM x }
    if st1.n_trained = st1.FM_grace_period then
      match FMcluster P st1.FM (st1.m : Int) with
      | Except.error e => Except.error e
      | Except.ok vm =>
        let st2 := createAD P { st1 with v := some vm }
        Except.ok { st2 with n_trained := st2.n_trained + 1 }
    else
      Except.ok { st1 with n_trained := st1.n_trained + 1 }
  else
    match st.outputLayer with
    | none => Except.error "AttributeError: outputLayer is None"
    | some out =>
      let trained := List.zipWith (fun ae idxs => AEtrain P ae (subVec x idxs))
        st.ensembleLayer (st.v.getD [])
      let S_l1 : ℕ → ℚ := fun a => ((trained.map Prod.fst).getD a 0)
      let out' := (AEtrain P out S_l1).2
      Except.ok { st with ensembleLayer := trained.map Prod.snd,
                          outputLayer := some out',
                          n_trained := st.n_trained + 1 }

/-- The message of the `RuntimeError` `KitNET.execute` raises when no feature
mapping exists. -/
def noFeatureMapMsg : String :=
  "RuntimeError: KitNET Cannot execute x, because a feature mapping has not yet been learned or provided. Try running process(x) instead."

/-- `KitNET.execute(x)`: raise when `self.v is None`; otherwise bump
`n_executed`, score every ensemble autoencoder on its sub-vector and return
the output autoencoder's score on the RMSE vector.  An allocated `v` with no
output layer would crash the source with an `AttributeError`; it is modelled
as a distinct error and is unreachable through the public lifecycle. -/
def KNexecute (P : Prims) (st : KitState) (x : ℕ → ℚ) : Except String (ℚ × KitState) :=
  match st.v with
  | none => Except.error noFeatureMapMsg
  | some vm =>
    let scores := List.zipWith (fun ae idxs => AEexecute P ae (subVec x idxs))
      st.ensembleLayer vm
    let S_l1 : ℕ → ℚ := fun a => scores.getD a 0
    match st.outputLayer with
    | none => Except.error "AttributeError: outputLayer is None"
    | some out =>
      Except.ok (AEexecute P out S_l1, { st with n_executed := st.n_executed + 1 })

/-- The integer value of a Python boolean: `True == 1`, `False == 0`. -/
def pyBoolToInt (b : Bool) : Int := if b then 1 else 0

/-- numpy `x.all()` over the first `n` components: every component truthy
(nonzero). -/
def npAll (n : ℕ) (x : ℕ → ℚ) : Bool :=
  (List.range n).all (fun i => decide (x i ≠ 0))

/-- `KitNET.process(x)`.  The source's skip guard is `if x.all() == -1:`  —
`x.all()` is a numpy boolean, and comparing a boolean to `-1` compares its
integer value (`0` or `1`) to `-1`, which is never true; the guard is embedded
verbatim.  Then execute once `n_trained` strictly exceeds
`FM_grace_period + AD_grace_period`, otherwise train and return `0.0`. -/
def KNprocess (P : Prims) (st : KitState) (x : ℕ → ℚ) : Except String (ℚ × KitState) :=
  if pyBoolToInt (npAll st.n x) = -1 then Except.ok (0, st)
  else if st.FM_grace_period + st.AD_grace_period < st.n_trained then
    KNexecute P st x
  else
    match KNtrain P st x with
    | Except.error e => Except.error e
    | Except.ok st' => Except.ok (0, st')

/-- `KitNET.get_params()`: the ensemble blobs and the output blob.  A `None`
output layer would crash the source (`None.get_params`), modelled as `none`. -/
def KNgetParams (st : KitState) : Option KNParamsBlob :=
  match st.outputLayer with
  | none => none
  | some out => some ⟨st.ensembleLayer.map AEgetParams, AEgetParams out⟩

/-- `KitNET.set_params(new_param)`: write the first `len(new_param["ensemble"])`
ensemble autoencoders' blobs and the output blob.  (A blob list longer than
the ensemble would crash the source's indexing; the zip models the
non-crashing case, the round trip below always has equal lengths.) -/
def KNsetParams (st : KitState) (b : KNParamsBlob) : KitState :=
  { st with
    ensembleLayer := List.zipWith AEsetParams st.ensembleLayer b.ensemble
      ++ st.ensembleLayer.drop b.ensemble.length
    outputLayer := st.outputLayer.map (fun o => AEsetParams o b.output) }

/-- The state after feeding the observation stream `obs 0, obs 1, ...` to the
engine one `process` call at a time: `stateAfter P obs st0 k` is the state
after `k` calls (propagating a raised error). -/
def stateAfter (P : Prims) (obs : ℕ → ℕ → ℚ) (st0 : KitState) : ℕ → Except String KitState
  | 0 => Except.ok st0
  | k + 1 =>
    match stateAfter P obs st0 k with
    | Except.error e => Except.error e
    | Except.ok st => (KNprocess P st (obs k)).map Prod.snd

/-- The score the `(k+1)`-th `process` call returns on the stream `obs`. -/
def scoreAt (P : Prims) (obs : ℕ → ℕ → ℚ) (st0 : KitState) (k : ℕ) : Except String ℚ :=
  match stateAfter P obs st0 k with
  | Except.error e => Except.error e
  | Except.ok st => (KNprocess P st (obs k)).map Prod.fst

/-- Feed a finite observation list through `process`, collecting the scores
and the final state. -/
def runProcess (P : Prims) (st : KitState) : List (ℕ → ℚ) → Except String (List ℚ × KitState)
  | [] => Except.ok ([], st)
  | x :: rest =>
    match KNprocess P st x with
    | Except.error e => Except.error e
    | Except.ok (s, st') =>
      match runProcess P st' rest with
      | Except.error e => Except.error e
      | Except.ok (ss, stf) => Except.ok (s :: ss, stf)

/-- The FM accumulator after the first `k` observations of the stream `obs`. -/
def fmIter (fm : CorClustState) (obs : ℕ → ℕ → ℚ) : ℕ → CorClustState
  | 0 => fm
  | k + 1 => FMupdate (fmIter fm obs k) (obs k)

/-- The FM accumulator reached from `corClust(n)` by a finite list of
`update` calls — exactly the reachable states of the clusterer. -/
def FMrun (n : ℕ) (xs : List (ℕ → ℚ)) : CorClustState :=
  xs.foldl FMupdate (corClustInit n)

/-- An engine built without a preset feature map:
`KitNET(n, max_autoencoder_size=m0, FM_grace_period=g1, AD_grace_period=g2, ...)`. -/
def mkPlain (P : Prims) (n : ℕ) (m0 : Int) (g1 g2 : ℕ) (lr hr : ℚ)
    (nrm : Bool) (prec : Option ℕ) (qz : Option (ℕ × ℕ)) : KitState :=
  mkKitNET P ⟨n, m0, some g1, g2, lr, hr, none, nrm, prec, qz⟩

/-- An engine built with a preset feature map `v0`. -/
def mkPreset (P : Prims) (n : ℕ) (m0 : Int) (g1 g2 : ℕ) (lr hr : ℚ)
    (nrm : Bool) (prec : Option ℕ) (qz : Option (ℕ × ℕ))
    (v0 : List (List ℕ)) : KitState :=
  mkKitNET P ⟨n, m0, some g1, g2, lr, hr, some v0, nrm, prec, qz⟩

/-- The invariant of the AD-train phase (`S1`): after `k` `process` calls the
engine has counted `k` training instances, holds a feature map and an output
autoencoder, has executed nothing, and keeps its two grace periods. -/
def S1Good (g1 g2 : ℕ) (st : KitState) (k : ℕ) : Prop :=
  st.FM_grace_period = g1 ∧ st.AD_grace_period = g2 ∧ st.n_trained = k ∧
    (∃ vm, st.v = some vm) ∧ (∃ out, st.outputLayer = some out) ∧ st.n_executed = 0

/-- The engine state during the FM-train phase (`S0`): after `k` `process`
calls on the stream `obs`, an engine built without a preset map has counted
`k` training instances and absorbed the first `k` observations into the FM
accumulator, everything else as constructed. -/
def plainA (P : Prims) (n : ℕ) (m0 : Int) (g1 g2 : ℕ) (lr hr : ℚ)
    (nrm : Bool) (prec : Option ℕ) (qz : Option (ℕ × ℕ))
    (obs : ℕ → ℕ → ℚ) (k : ℕ) : KitState :=
  { mkPlain P n m0 g1 g2 lr hr nrm prec qz with
    n_trained := k, FM := fmIter (corClustInit n) obs k }

/-- Concrete primitives used by the closed instances: the zero stream for the
uniform draws, the constant `1` for `exp` (so `sigmoid` evaluates to `1/2`),
the identity for `sqrt`, `tanh` and `rnd`, the identity mask, and the
dendrogram scipy's single linkage produces for two observations. -/
def P0 : Prims :=
  { u := fun _ => 0
    exp := fun _ => 1
    sqrt := fun q => q
    tanh := fun q => q
    rnd := fun q => q
    corrupt := fun x => x
    linkTree := fun _ _ => DTree.node (DTree.leaf 0) (DTree.leaf 1) }

/-- The all-(−1) observation, the spec's skip sentinel. -/
def negVec : ℕ → ℚ := fun _ => -1

/-- A one-feature engine with both grace periods `1` (fresh, in FM-train
phase). -/
def cfgC1 : KNConfig := ⟨1, 10, some 1, 1, 1 / 10, 3 / 4, none, true, none, none⟩

/-- A concrete nonzero observation stream: every component of every
observation is `1`. -/
def oneObs : ℕ → ℕ → ℚ := fun _ _ => 1

/-- A two-feature engine, no preset map, grace periods `1` and `1`, learning
rate `0`, hidden ratio `1`, no normalization — the closed instance for the
lifecycle off-by-one. -/
def engC2 : KitState := mkPlain P0 2 10 1 1 0 1 false none none

/-- A two-feature engine with the preset map `[[0], [1]]`, `FM_grace = 5`,
`AD_grace = 1` — the closed instance showing the execute threshold ignores
the preset map. -/
def engC3 : KitState := mkPreset P0 2 10 5 1 0 1 false none none [[0], [1]]

/-- A two-feature engine with the preset map `[[0], [1]]` and both grace
periods `1`, the closed instance for the parameter round trip. -/
def engC8 : KitState := mkPreset P0 2 10 1 1 0 1 false none none [[0], [1]]

/-- A concrete autoencoder configuration: two visible, two hidden units, no
ratio, no quantization. -/
def aeP1 : AEParams := ⟨2, 2, 0, 0, 0, none, true, none, none⟩

/-- The same shape as `aeP1` but a different learning rate. -/
def aeP2 : AEParams := ⟨2, 2, 1, 0, 0, none, true, none, none⟩

/-! ## Helper lemmas -/

/-- A Python boolean compared to `-1` is never equal: the skip guard of
`process` can never fire. -/
lemma pyBoolToInt_ne_negOne (b : Bool) : pyBoolToInt b ≠ -1 := by
  cases b <;> simp [pyBoolToInt]

/-- `process` in a training phase: no execution, score `0`. -/
lemma KNprocess_train_eq (P : Prims) (st : KitState) (x : ℕ → ℚ) (st' : KitState)
    (h : ¬ st.FM_grace_period + st.AD_grace_period < st.n_trained)
    (ht : KNtrain P st x = Except.ok st') :
    KNprocess P st x = Except.ok (0, st') := by
  unfold KNprocess
  rw [if_neg (pyBoolToInt_ne_negOne _), if_neg h, ht]

/-- `process` in the execute phase forwards to `execute`. -/
lemma KNprocess_exec_eq (P : Prims) (st : KitState) (x : ℕ → ℚ)
    (h : st.FM_grace_period + st.AD_grace_period < st.n_trained) :
    KNprocess P st x = KNexecute P st x := by
  unfold KNprocess
  rw [if_neg (pyBoolToInt_ne_negOne _), if_pos h]

lemma sumR_sq_nonneg (k : ℕ) (f : ℕ → ℚ) : 0 ≤ sumR k (fun i => f i ^ 2) := by
  apply List.sum_nonneg
  intro q hq
  obtain ⟨i, -, rfl⟩ := List.mem_map.mp hq
  positivity

/-- Every autoencoder score is nonnegative, provided `sqrt` maps
nonnegatives to nonnegatives. -/
lemma AEexecute_nonneg (P : Prims) (ae : AEState) (x : ℕ → ℚ)
    (hsq : ∀ q : ℚ, 0 ≤ q → 0 ≤ P.sqrt q) : 0 ≤ AEexecute P ae x := by
  unfold AEexecute
  split
  · exact le_refl 0
  · exact hsq _ (div_nonneg (sumR_sq_nonneg _ _) (by positivity))

lemma preOrder_length_pos (t : DTree) : 0 < t.preOrder.length := by
  induction t with
  | leaf i => simp [DTree.preOrder]
  | node l r ihl ihr => simp only [DTree.preOrder, List.length_append]; omega

/-- Breaking a dendrogram with a positive bound re-lists exactly its leaves. -/
lemma breakClust_flatten (t : DTree) (mc : ℕ) (h : 1 ≤ mc) :
    (breakClust t mc).flatten = t.preOrder := by
  induction t with
  | leaf i =>
    have h1 : (DTree.leaf i).count ≤ mc := h
    simp [breakClust, if_pos h1]
  | node l r ihl ihr =>
    by_cases hc : (DTree.node l r).count ≤ mc
    · simp [breakClust, if_pos hc]
    · simp [breakClust, if_neg hc, ihl, ihr, DTree.preOrder]

/-- Every emitted cluster is nonempty and no larger than the bound. -/
lemma breakClust_sizes (t : DTree) (mc : ℕ) (h : 1 ≤ mc) :
    ∀ cl ∈ breakClust t mc, 1 ≤ cl.length ∧ cl.length ≤ mc := by
  induction t with
  | leaf i =>
    intro cl hcl
    have h1 : (DTree.leaf i).count ≤ mc := h
    simp [breakClust, if_pos h1] at hcl
    subst hcl
    simp [DTree.preOrder]
    exact h
  | node l r ihl ihr =>
    intro cl hcl
    by_cases hc : (DTree.node l r).count ≤ mc
    · simp [breakClust, if_pos hc] at hcl
      subst hcl
      exact ⟨preOrder_length_pos _, hc⟩
    · simp [breakClust, if_neg hc] at hcl
      rcases hcl with hcl | hcl
      · exact ihl cl hcl
      · exact ihr cl hcl

/-- Symmetry of `C` and nonnegativity of `c_rs` are preserved by any run of
`update` calls. -/
lemma foldl_FM_invariant (xs : List (ℕ → ℚ)) :
    ∀ st : CorClustState, (∀ i j, st.C i j = st.C j i) → (∀ i, 0 ≤ st.c_rs i) →
      (∀ i j, (xs.foldl FMupdate st).C i j = (xs.foldl FMupdate st).C j i) ∧
        (∀ i, 0 ≤ (xs.foldl FMupdate st).c_rs i) := by
  induction xs with
  | nil => exact fun st h1 h2 => ⟨h1, h2⟩
  | cons x rest ih =>
    intro st h1 h2
    apply ih
    · intro i j
      simp only [FMupdate]
      rw [h1 i j]
      ring
    · intro i
      simp only [FMupdate]
      exact add_nonneg (h2 i) (sq_nonneg _)

lemma AEsetParams_getParams (ae : AEState) : AEsetParams ae (AEgetParams ae) = ae := rfl

lemma zipWith_set_get (aes : List AEState) :
    List.zipWith AEsetParams aes (aes.map AEgetParams) = aes := by
  induction aes with
  | nil => rfl
  | cons a t ih => simp [AEsetParams_getParams, ih]

lemma effParams_n_visible (p : AEParams) : (effParams p).n_visible = p.n_visible := by
  unfold effParams
  cases p.hiddenRatio <;> rfl

lemma effParams_quantize (p : AEParams) : (effParams p).quantize = p.quantize := by
  unfold effParams
  cases p.hiddenRatio <;> rfl

/-! ## Theorems for the claims -/

/-- C4 (amended: `n ≥ 2`, so that `linkage` accepts the condensed matrix).
For every FM state over `n ≥ 2` features and every integer `m`, given the
scipy dendrogram contract (the tree's leaves are exactly `0..n-1`),
`cluster(m)` returns a partition: the concatenation of the clusters is a
permutation of `0..n-1` (every index in exactly one cluster), the clusters
are pairwise disjoint and duplicate-free, and every cluster has size at
least `1` and at most `max(m, 1)` (the bound is clamped into `[1, n]` before
use). -/
theorem fm_cluster_partition (P : Prims) (st : CorClustState) (m : Int)
    (hn : 2 ≤ st.n)
    (hlink : (P.linkTree st.n (condensedD P st)).preOrder.Perm (List.range st.n)) :
    ∃ parts, FMcluster P st m = Except.ok parts ∧
      parts.flatten.Perm (List.range st.n) ∧
      parts.Pairwise List.Disjoint ∧
      (∀ cl ∈ parts, cl.Nodup) ∧
      (∀ cl ∈ parts, 1 ≤ cl.length ∧ (cl.length : Int) ≤ max m 1) := by
  have key : ∀ mc : ℕ, 1 ≤ mc → (mc : Int) ≤ max m 1 →
      (breakClust (P.linkTree st.n (condensedD P st)) mc).flatten.Perm (List.range st.n) ∧
      (breakClust (P.linkTree st.n (condensedD P st)) mc).Pairwise List.Disjoint ∧
      (∀ cl ∈ breakClust (P.linkTree st.n (condensedD P st)) mc, cl.Nodup) ∧
      (∀ cl ∈ breakClust (P.linkTree st.n (condensedD P st)) mc,
        1 ≤ cl.length ∧ (cl.length : Int) ≤ max m 1) := by
    intro mc hmc1 hmc2
    have hflat := breakClust_flatten (P.linkTree st.n (condensedD P st)) mc hmc1
    have hperm : (breakClust (P.linkTree st.n (condensedD P st)) mc).flatten.Perm
        (List.range st.n) := by rw [hflat]; exact hlink
    have hnd : (breakClust (P.linkTree st.n (condensedD P st)) mc).flatten.Nodup :=
      hperm.symm.nodup (List.nodup_range _)
    obtain ⟨hclnd, hdisj⟩ := List.nodup_flatten.mp hnd
    refine ⟨hperm, hdisj, hclnd, ?_⟩
    intro cl hcl
    obtain ⟨hl1, hl2⟩ := breakClust_sizes _ mc hmc1 cl hcl
    exact ⟨hl1, le_trans (Int.ofNat_le.mpr hl2) hmc2⟩
  unfold FMcluster
  rw [if_neg (by omega)]
  apply Exists.intro
  refine ⟨rfl, ?_⟩
  apply key
  · split_ifs <;> omega
  · rcases max_cases m 1 with ⟨hmax, hm1⟩ | ⟨hmax, hm1⟩ <;> rw [hmax] <;>
      split_ifs <;> omega

/-- C4 witness: at the two-feature initial FM state the concrete primitives
satisfy the dendrogram contract and the partition properties follow. -/
theorem fm_cluster_partition_witness :
    ∃ parts, FMcluster P0 (corClustInit 2) 5 = Except.ok parts ∧
      parts.flatten.Perm (List.range 2) ∧
      parts.Pairwise List.Disjoint ∧
      (∀ cl ∈ parts, cl.Nodup) ∧
      (∀ cl ∈ parts, 1 ≤ cl.length ∧ (cl.length : Int) ≤ max 5 1) :=
  fm_cluster_partition P0 (corClustInit 2) 5 (by decide) (by decide)

/-- C4 counterexample to the claim as stated: over a single feature the
reachable FM state (one `update` absorbed) makes `cluster` raise — scipy's
`linkage` rejects the empty condensed distance matrix — instead of returning
a partition of `{0}`. -/
theorem fm_cluster_partition_counterexample :
    FMcluster P0 (FMupdate (corClustInit 1) (fun _ => 2)) 3 =
      Except.error emptyDistanceMsg := rfl

/-- C5 (amended): for an FM over a single feature, `cluster` raises scipy's
empty-distance-matrix error for every `maxClust`, rather than returning
`[[0]]`. -/
theorem fm_cluster_single_feature_raises (P : Prims) (st : CorClustState) (mc : Int)
    (h : st.n = 1) : FMcluster P st mc = Except.error emptyDistanceMsg := by
  unfold FMcluster
  rw [if_pos (by omega)]

/-- C5 witness: the single-feature state after one `update`. -/
theorem fm_cluster_single_feature_raises_witness :
    FMcluster P0 (FMupdate (corClustInit 1) (fun _ => 3)) 2 =
      Except.error emptyDistanceMsg :=
  fm_cluster_single_feature_raises P0 _ 2 rfl

/-- C5 counterexample to the claim as stated: at `n = 1` the fresh FM state
makes `cluster` return the error, not `[[0]]`. -/
theorem fm_cluster_single_feature_counterexample :
    FMcluster P0 (corClustInit 1) 7 = Except.error emptyDistanceMsg := rfl

/-- C6: on every reachable FM state (any finite `update` run from
initialization) the correlation distance matrix is symmetric and
entrywise nonnegative, and no entry can be a NaN: the `sqrt` arguments
`c_rs` are nonnegative and the guarded denominator is nonzero (stated as a
sign disjunction), for every choice of the `sqrt` primitive. -/
theorem fm_corrDist_props (P : Prims) (n : ℕ) (xs : List (ℕ → ℚ)) (i j : ℕ) :
    corrDist P (FMrun n xs) i j = corrDist P (FMrun n xs) j i ∧
    0 ≤ corrDist P (FMrun n xs) i j ∧
    0 ≤ (FMrun n xs).c_rs i ∧
    (guardZero (P.sqrt ((FMrun n xs).c_rs i) * P.sqrt ((FMrun n xs).c_rs j)) < 0 ∨
      0 < guardZero (P.sqrt ((FMrun n xs).c_rs i) * P.sqrt ((FMrun n xs).c_rs j))) := by
  obtain ⟨hC, hrs⟩ := foldl_FM_invariant xs (corClustInit n)
    (fun _ _ => rfl) (fun _ => le_refl 0)
  have hC' : ∀ a b, (FMrun n xs).C a b = (FMrun n xs).C b a := hC
  have hrs' : ∀ a, 0 ≤ (FMrun n xs).c_rs a := hrs
  refine ⟨?_, ?_, hrs' i, ?_⟩
  · unfold corrDist
    rw [hC' i j, mul_comm (P.sqrt ((FMrun n xs).c_rs i)) (P.sqrt ((FMrun n xs).c_rs j))]
  · unfold corrDist
    dsimp only
    split
    · exact le_refl 0
    · next hlt => exact le_of_not_lt hlt
  · unfold guardZero
    split
    · right
      positivity
    · next hne => exact lt_or_gt_of_ne hne

/-- C7: two engines constructed with identical parameters and fed the
identical observation stream return identical score sequences and identical
final states (hence identical weights, biases and normalization vectors in
every autoencoder).  In the embedding the construction is a pure function of
the configuration — all pseudo-randomness is the fixed seed-1234 stream
`P.u`, shared by construction — so determinism is definitional. -/
theorem kitnet_deterministic (P : Prims) (cfg : KNConfig) (e1 e2 : KitState)
    (xs : List (ℕ → ℚ)) (h1 : e1 = mkKitNET P cfg) (h2 : e2 = mkKitNET P cfg) :
    runProcess P e1 xs = runProcess P e2 xs ∧
      e1.ensembleLayer.map AEState.W = e2.ensembleLayer.map AEState.W ∧
      e1.outputLayer = e2.outputLayer := by
  subst h1
  subst h2
  exact ⟨rfl, rfl, rfl⟩

/-- C7 witness: a concrete engine pair. -/
theorem kitnet_deterministic_witness :
    runProcess P0 (mkKitNET P0 cfgC1) [] = runProcess P0 (mkKitNET P0 cfgC1) [] :=
  (kitnet_deterministic P0 cfgC1 (mkKitNET P0 cfgC1) (mkKitNET P0 cfgC1) [] rfl rfl).1

/-- C8: once the autoencoders are allocated, `set_params(get_params())` is the
identity on the engine state, so every subsequent `process`/`execute` stream
is bit-identical to that of an engine that never made the round trip. -/
theorem kitnet_param_roundtrip (P : Prims) (st : KitState) (out : AEState)
    (h : st.outputLayer = some out) :
    (KNgetParams st).map (KNsetParams st) = some st ∧
    ∀ xs, (KNgetParams st).map (fun b => runProcess P (KNsetParams st b) xs) =
      some (runProcess P st xs) := by
  have hget : KNgetParams st = some ⟨st.ensembleLayer.map AEgetParams, AEgetParams out⟩ := by
    unfold KNgetParams
    rw [h]
  have hE : List.zipWith AEsetParams st.ensembleLayer (st.ensembleLayer.map AEgetParams)
      ++ st.ensembleLayer.drop (st.ensembleLayer.map AEgetParams).length
      = st.ensembleLayer := by
    rw [zipWith_set_get, List.length_map, List.drop_length, List.append_nil]
  have hO : st.outputLayer.map (fun o => AEsetParams o (AEgetParams out)) = st.outputLayer := by
    rw [h]
    rfl
  have hset : KNsetParams st ⟨st.ensembleLayer.map AEgetParams, AEgetParams out⟩ = st := by
    unfold KNsetParams
    rw [hE, hO]
  constructor
  · rw [hget]
    exact congrArg some hset
  · intro xs
    rw [hget]
    exact congrArg some (congrArg (fun s => runProcess P s xs) hset)

/-- C8 witness: the concrete allocated engine. -/
theorem kitnet_param_roundtrip_witness :
    (KNgetParams engC8).map (KNsetParams engC8) = some engC8 :=
  (kitnet_param_roundtrip P0 engC8 (engC8.outputLayer.get (by rfl))
    (Option.some_get (by rfl)).symm).1

/-- C9: `execute` fails with the missing-feature-map error exactly when no
partition exists; with a partition (and the output autoencoder its
allocation brings) it increments `n_executed` and returns the output
autoencoder's score on the vector of ensemble scores, raising nothing. -/
theorem kitnet_execute_guard (P : Prims) (st : KitState) (x : ℕ → ℚ) :
    ((KNexecute P st x = Except.error noFeatureMapMsg) ↔ st.v = none) ∧
    (∀ vm out, st.v = some vm → st.outputLayer = some out →
      KNexecute P st x = Except.ok
        (AEexecute P out (fun a =>
          (List.zipWith (fun ae idxs => AEexecute P ae (subVec x idxs))
            st.ensembleLayer vm).getD a 0),
         { st with n_executed := st.n_executed + 1 })) := by
  constructor
  · cases hv : st.v with
    | none => simp [KNexecute, hv]
    | some vm =>
      cases ho : st.outputLayer with
      | none =>
        simp only [KNexecute, hv, ho]
        constructor
        · intro hc
          exact absurd (Except.error.inj hc) (by decide)
        · intro hc
          cases hc
      | some out => simp [KNexecute, hv, ho]
  · intro vm out hv ho
    simp [KNexecute, hv, ho]

/-- C9 witness: on the allocated engine the feature map exists, `execute`
raises nothing and increments the counter. -/
theorem kitnet_execute_guard_witness :
    KNexecute P0 engC8 (fun _ => 1) = Except.ok
      (AEexecute P0 (engC8.outputLayer.get (by rfl)) (fun a =>
        (List.zipWith (fun ae idxs => AEexecute P0 ae (subVec (fun _ => 1) idxs))
          engC8.ensembleLayer [[0], [1]]).getD a 0),
       { engC8 with n_executed := engC8.n_executed + 1 }) :=
  (kitnet_execute_guard P0 engC8 (fun _ => 1)).2 [[0], [1]]
    (engC8.outputLayer.get (by rfl)) rfl (Option.some_get (by rfl)).symm

/-- C10: every `dA` seeds its private generator with the constant 1234, so
two autoencoders with equal `n_visible`, equal (derived) `n_hidden` and the
same quantization setting start with bit-identical weight matrices, zero
biases, and identical `norm_min`/`norm_max` initializations and observation
counts — whatever their other parameters. -/
theorem dA_seed_identical_init (P : Prims) (p1 p2 : AEParams)
    (hv : p1.n_visible = p2.n_visible)
    (hh : (effParams p1).n_hidden = (effParams p2).n_hidden)
    (hq : p1.quantize = p2.quantize) :
    (dAinit P p1).W = (dAinit P p2).W ∧
    (dAinit P p1).hbias = (fun _ => 0) ∧
    (dAinit P p1).vbias = (fun _ => 0) ∧
    (dAinit P p1).hbias = (dAinit P p2).hbias ∧
    (dAinit P p1).vbias = (dAinit P p2).vbias ∧
    (dAinit P p1).norm_min = (dAinit P p2).norm_min ∧
    (dAinit P p1).norm_max = (dAinit P p2).norm_max ∧
    (dAinit P p1).n = (dAinit P p2).n := by
  refine ⟨?_, rfl, rfl, rfl, rfl, rfl, rfl, rfl⟩
  show dAinitW P (effParams p1).n_visible (effParams p1).n_hidden (effParams p1).quantize
      = dAinitW P (effParams p2).n_visible (effParams p2).n_hidden (effParams p2).quantize
  rw [effParams_n_visible, effParams_n_visible, effParams_quantize, effParams_quantize,
    hv, hh, hq]

/-- C10 witness: two same-shape autoencoders differing in learning rate. -/
theorem dA_seed_identical_init_witness :
    (dAinit P0 aeP1).W = (dAinit P0 aeP2).W :=
  (dA_seed_identical_init P0 aeP1 aeP2 rfl rfl rfl).1

/-- C1: the skip sentinel is not skipped.  The guard `x.all() == -1`
compares a boolean to `-1` and never fires, so on the all-(−1) observation a
fresh engine still trains: the call returns `0.0` but `n_trained` advances
to `1` and the FM absorbs the observation (`N = 1`), contradicting the
claimed frame property.  (The same call, per the claim, should leave both
counters at `0`.) -/
theorem sentinel_not_skipped :
    (KNprocess P0 (mkKitNET P0 cfgC1) negVec).map
      (fun r => (r.1, r.2.n_trained, r.2.FM.N)) = Except.ok (0, 1, 1) := rfl

lemma stateAfter_succ (P : Prims) (obs : ℕ → ℕ → ℚ) (st0 : KitState) (k : ℕ) :
    stateAfter P obs st0 (k + 1) =
      match stateAfter P obs st0 k with
      | Except.error e => Except.error e
      | Except.ok st => (KNprocess P st (obs k)).map Prod.snd := rfl

lemma stateAfter_step (P : Prims) (obs : ℕ → ℕ → ℚ) (st0 : KitState) (k : ℕ)
    (s : KitState) (h : stateAfter P obs st0 k = Except.ok s) :
    stateAfter P obs st0 (k + 1) = (KNprocess P s (obs k)).map Prod.snd := by
  have e1 := stateAfter_succ P obs st0 k
  rw [h] at e1
  exact e1

lemma scoreAt_eq (P : Prims) (obs : ℕ → ℕ → ℚ) (st0 : KitState) (k : ℕ)
    (s : KitState) (h : stateAfter P obs st0 k = Except.ok s) :
    scoreAt P obs st0 k = (KNprocess P s (obs k)).map Prod.fst := by
  unfold scoreAt
  rw [h]

lemma fmIter_n (fm : CorClustState) (obs : ℕ → ℕ → ℚ) :
    ∀ k, (fmIter fm obs k).n = fm.n := by
  intro k
  induction k with
  | zero => rfl
  | succ k ih => exact ih

lemma AEtrain_n (P : Prims) (ae : AEState) (x : ℕ → ℚ) :
    ((AEtrain P ae x).2).n = ae.n + 1 := rfl

/-- `KitNET.train` in the ensemble branch (a feature map and an output layer
exist): train every ensemble autoencoder zipped with its cluster, train the
output autoencoder on the score vector, bump `n_trained`. -/
lemma KNtrain_S1 (P : Prims) (st : KitState) (x : ℕ → ℚ) (vm : List (List ℕ))
    (out : AEState) (hv : st.v = some vm) (hout : st.outputLayer = some out) :
    KNtrain P st x = Except.ok
      { st with
        ensembleLayer := (List.zipWith (fun ae idxs => AEtrain P ae (subVec x idxs))
          st.ensembleLayer vm).map Prod.snd,
        outputLayer := some (AEtrain P out (fun a =>
          ((List.zipWith (fun ae idxs => AEtrain P ae (subVec x idxs))
            st.ensembleLayer vm).map Prod.fst).getD a 0)).2,
        n_trained := st.n_trained + 1 } := by
  unfold KNtrain
  rw [if_neg (by rintro ⟨-, h2⟩; rw [hv] at h2; exact Option.noConfusion h2), hout, hv]
  rfl

/-- `KitNET.execute` when a feature map and an output layer exist. -/
lemma KNexecute_ok (P : Prims) (st : KitState) (x : ℕ → ℚ) (vm : List (List ℕ))
    (out : AEState) (hv : st.v = some vm) (hout : st.outputLayer = some out) :
    KNexecute P st x = Except.ok
      (AEexecute P out (fun a =>
        (List.zipWith (fun ae idxs => AEexecute P ae (subVec x idxs))
          st.ensembleLayer vm).getD a 0),
       { st with n_executed := st.n_executed + 1 }) := by
  unfold KNexecute
  rw [hv, hout]

/-- One `process` call in the AD-train phase: score `0`, the invariant moves
one step, the FM accumulator is untouched. -/
lemma S1_step (P : Prims) (g1 g2 : ℕ) (st : KitState) (x : ℕ → ℚ) (k : ℕ)
    (hg : S1Good g1 g2 st k) (hk : k ≤ g1 + g2) :
    ∃ st', KNprocess P st x = Except.ok (0, st') ∧ S1Good g1 g2 st' (k + 1) ∧
      st'.FM = st.FM := by
  obtain ⟨hfg, hag, hnt, ⟨vm, hv⟩, ⟨out, hout⟩, hne⟩ := hg
  have htr := KNtrain_S1 P st x vm out hv hout
  refine ⟨_, KNprocess_train_eq P st x _ (by rw [hfg, hag, hnt]; omega) htr, ?_, rfl⟩
  exact ⟨hfg, hag, by rw [show ({ st with
      ensembleLayer := (List.zipWith (fun ae idxs => AEtrain P ae (subVec x idxs))
        st.ensembleLayer vm).map Prod.snd,
      outputLayer := some (AEtrain P out (fun a =>
        ((List.zipWith (fun ae idxs => AEtrain P ae (subVec x idxs))
          st.ensembleLayer vm).map Prod.fst).getD a 0)).2,
      n_trained := st.n_trained + 1 } : KitState).n_trained = st.n_trained + 1 from rfl, hnt],
    ⟨vm, hv⟩, ⟨_, rfl⟩, hne⟩

/-- Iterating `S1_step`: the invariant propagates along the stream while the
call index stays within the training window. -/
lemma S1_run (P : Prims) (obs : ℕ → ℕ → ℚ) (st0 : KitState) (g1 g2 : ℕ) :
    ∀ (j k : ℕ) (s : KitState), stateAfter P obs st0 k = Except.ok s →
      S1Good g1 g2 s k → k + j ≤ g1 + g2 + 1 →
      ∃ s', stateAfter P obs st0 (k + j) = Except.ok s' ∧ S1Good g1 g2 s' (k + j) ∧
        s'.FM = s.FM := by
  intro j
  induction j with
  | zero => exact fun k s h hg _ => ⟨s, h, hg, rfl⟩
  | succ j ih =>
    intro k s h hg hb
    obtain ⟨s', h', hg', hFM⟩ := ih k s h hg (by omega)
    obtain ⟨s'', hstep, hg'', hFM'⟩ := S1_step P g1 g2 s' (obs (k + j)) (k + j) hg' (by omega)
    refine ⟨s'', ?_, hg'', by rw [hFM', hFM]⟩
    rw [show k + (j + 1) = (k + j) + 1 from rfl, stateAfter_step P obs st0 (k + j) s' h', hstep]
    rfl

lemma map_replicate_one {α : Type} (l : List α) :
    l.map (fun _ => (1 : ℕ)) = List.replicate l.length 1 := by
  induction l with
  | nil => rfl
  | cons a t ih => simp [List.replicate_succ, ih]

lemma map_train_n (P : Prims) (x : ℕ → ℚ) (f : List ℕ → AEState) (v0 : List (List ℕ)) :
    ((List.zipWith (fun ae idxs => AEtrain P ae (subVec x idxs)) (v0.map f) v0).map
        Prod.snd).map AEState.n = v0.map (fun mp => (f mp).n + 1) := by
  induction v0 with
  | nil => rfl
  | cons a t ih =>
    simp only [List.map_cons, List.zipWith_cons_cons, AEtrain_n, ih]

/-- C3 (amended): with a preset feature map, phase S0 is skipped — the FM
accumulator is never updated and every ensemble autoencoder trains already on
the very first `process` call — but the execute threshold is unchanged by the
preset: every call with index at most `FM_grace + AD_grace` still trains and
returns `0` (so call `AD_grace + 1` does not execute when `FM_grace > 0`),
and the first execute call is call `FM_grace + AD_grace + 2`, whose
`n_executed` is `1`. -/
theorem preset_map_lifecycle (P : Prims) (n : ℕ) (m0 : Int) (g1 g2 : ℕ)
    (lr hr : ℚ) (nrm : Bool) (prec : Option ℕ) (qz : Option (ℕ × ℕ))
    (v0 : List (List ℕ)) (obs : ℕ → ℕ → ℚ) :
    (∀ k, k ≤ g1 + g2 →
      scoreAt P obs (mkPreset P n m0 g1 g2 lr hr nrm prec qz v0) k = Except.ok 0) ∧
    (stateAfter P obs (mkPreset P n m0 g1 g2 lr hr nrm prec qz v0) 1).map
        (fun s => s.ensembleLayer.map AEState.n) = Except.ok (List.replicate v0.length 1) ∧
    (∀ k, k ≤ g1 + g2 + 1 →
      (stateAfter P obs (mkPreset P n m0 g1 g2 lr hr nrm prec qz v0) k).map KitState.FM
        = Except.ok (corClustInit n)) ∧
    (stateAfter P obs (mkPreset P n m0 g1 g2 lr hr nrm prec qz v0) (g1 + g2 + 2)).map
        KitState.n_executed = Except.ok 1 := by
  have h0 : S1Good g1 g2 (mkPreset P n m0 g1 g2 lr hr nrm prec qz v0) 0 :=
    ⟨rfl, rfl, rfl, ⟨v0, rfl⟩, ⟨_, rfl⟩, rfl⟩
  have hrunAll : ∀ k, k ≤ g1 + g2 + 1 →
      ∃ s, stateAfter P obs (mkPreset P n m0 g1 g2 lr hr nrm prec qz v0) k = Except.ok s ∧
        S1Good g1 g2 s k ∧ s.FM = (mkPreset P n m0 g1 g2 lr hr nrm prec qz v0).FM := by
    intro k hk
    obtain ⟨s, hs, hg, hFM⟩ := S1_run P obs (mkPreset P n m0 g1 g2 lr hr nrm prec qz v0)
      g1 g2 k 0 (mkPreset P n m0 g1 g2 lr hr nrm prec qz v0) rfl h0 (by omega)
    rw [Nat.zero_add] at hs hg
    exact ⟨s, hs, hg, hFM⟩
  refine ⟨?_, ?_, ?_, ?_⟩
  · intro k hk
    obtain ⟨s, hs, hg, -⟩ := hrunAll k (by omega)
    obtain ⟨s', hstep, -, -⟩ := S1_step P g1 g2 s (obs k) k hg hk
    rw [scoreAt_eq P obs _ k s hs, hstep]
    rfl
  · have hso : (mkPreset P n m0 g1 g2 lr hr nrm prec qz v0).outputLayer.isSome = true := rfl
    have hout : (mkPreset P n m0 g1 g2 lr hr nrm prec qz v0).outputLayer =
        some ((mkPreset P n m0 g1 g2 lr hr nrm prec qz v0).outputLayer.get hso) :=
      (Option.some_get hso).symm
    have htr := KNtrain_S1 P (mkPreset P n m0 g1 g2 lr hr nrm prec qz v0) (obs 0) v0
      ((mkPreset P n m0 g1 g2 lr hr nrm prec qz v0).outputLayer.get hso) rfl hout
    have hp := KNprocess_train_eq P (mkPreset P n m0 g1 g2 lr hr nrm prec qz v0) (obs 0) _
      (by
        show ¬ (g1 + g2 < 0)
        omega) htr
    rw [show stateAfter P obs (mkPreset P n m0 g1 g2 lr hr nrm prec qz v0) 1 =
        (KNprocess P (mkPreset P n m0 g1 g2 lr hr nrm prec qz v0) (obs 0)).map Prod.snd
      from rfl, hp]
    exact congrArg Except.ok
      ((map_train_n P (obs 0)
        (fun mp => dAinit P (mkAEParams (mkPreset P n m0 g1 g2 lr hr nrm prec qz v0) mp.length))
        v0).trans (map_replicate_one v0))
  · intro k hk
    obtain ⟨s, hs, -, hFM⟩ := hrunAll k hk
    rw [hs]
    exact congrArg Except.ok hFM
  · obtain ⟨s, hs, hg, -⟩ := hrunAll (g1 + g2 + 1) (le_refl _)
    obtain ⟨hfg, hag, hnt, ⟨vm, hv⟩, ⟨out, hout⟩, hne⟩ := hg
    have hex := KNexecute_ok P s (obs (g1 + g2 + 1)) vm out hv hout
    have hp : KNprocess P s (obs (g1 + g2 + 1)) = KNexecute P s (obs (g1 + g2 + 1)) :=
      KNprocess_exec_eq P s _ (by rw [hfg, hag, hnt]; omega)
    rw [stateAfter_step P obs _ (g1 + g2 + 1) s hs, hp, hex]
    exact congrArg Except.ok (by rw [hne])

/-- One FM-train step: `train` updates the accumulator and the counter, and
below the transition instant nothing else changes. -/
lemma KNtrain_A (P : Prims) (n : ℕ) (m0 : Int) (g1 g2 : ℕ) (lr hr : ℚ) (nrm : Bool)
    (prec : Option ℕ) (qz : Option (ℕ × ℕ)) (obs : ℕ → ℕ → ℚ) (k : ℕ)
    (hk : k ≤ g1) (hne : k ≠ g1) :
    KNtrain P (plainA P n m0 g1 g2 lr hr nrm prec qz obs k) (obs k)
      = Except.ok (plainA P n m0 g1 g2 lr hr nrm prec qz obs (k + 1)) := by
  unfold KNtrain
  rw [if_pos ?hc1]
  case hc1 => exact ⟨hk, rfl⟩
  dsimp only
  rw [if_neg ?hc2]
  case hc2 => exact fun hc => hne hc
  rfl

/-- The FM-train phase: the first `g1` calls leave the engine in the
`plainA` states. -/
lemma A_run (P : Prims) (n : ℕ) (m0 : Int) (g1 g2 : ℕ) (lr hr : ℚ) (nrm : Bool)
    (prec : Option ℕ) (qz : Option (ℕ × ℕ)) (obs : ℕ → ℕ → ℚ) :
    ∀ k, k ≤ g1 →
      stateAfter P obs (mkPlain P n m0 g1 g2 lr hr nrm prec qz) k
        = Except.ok (plainA P n m0 g1 g2 lr hr nrm prec qz obs k) := by
  intro k
  induction k with
  | zero => exact fun _ => rfl
  | succ k ih =>
    intro hk1
    have hk : k ≤ g1 := by omega
    have htr := KNtrain_A P n m0 g1 g2 lr hr nrm prec qz obs k hk (by omega)
    rw [stateAfter_step P obs _ k _ (ih hk),
      KNprocess_train_eq P _ (obs k) _ (by show ¬ (g1 + g2 < k); omega) htr]
    rfl

/-- The first `g1` calls return score `0` from the FM branch. -/
lemma A_score (P : Prims) (n : ℕ) (m0 : Int) (g1 g2 : ℕ) (lr hr : ℚ) (nrm : Bool)
    (prec : Option ℕ) (qz : Option (ℕ × ℕ)) (obs : ℕ → ℕ → ℚ) (k : ℕ)
    (hk : k ≤ g1) (hne : k ≠ g1) :
    scoreAt P obs (mkPlain P n m0 g1 g2 lr hr nrm prec qz) k = Except.ok 0 := by
  have htr := KNtrain_A P n m0 g1 g2 lr hr nrm prec qz obs k hk hne
  rw [scoreAt_eq P obs _ k _ (A_run P n m0 g1 g2 lr hr nrm prec qz obs k hk),
    KNprocess_train_eq P _ (obs k) _ (by show ¬ (g1 + g2 < k); omega) htr]
  rfl

/-- The transition call (index `g1`): the FM absorbs its last observation,
the feature map is clustered (which succeeds for `n ≥ 2`), the autoencoders
are allocated, and the call still returns score `0`. -/
lemma AtoS1 (P : Prims) (n : ℕ) (m0 : Int) (g1 g2 : ℕ) (lr hr : ℚ) (nrm : Bool)
    (prec : Option ℕ) (qz : Option (ℕ × ℕ)) (obs : ℕ → ℕ → ℚ) (hn : 2 ≤ n) :
    ∃ s', stateAfter P obs (mkPlain P n m0 g1 g2 lr hr nrm prec qz) (g1 + 1)
        = Except.ok s' ∧ S1Good g1 g2 s' (g1 + 1) ∧
      scoreAt P obs (mkPlain P n m0 g1 g2 lr hr nrm prec qz) g1 = Except.ok 0 := by
  have hok : ∃ s', KNtrain P (plainA P n m0 g1 g2 lr hr nrm prec qz obs g1) (obs g1)
      = Except.ok s' ∧ S1Good g1 g2 s' (g1 + 1) := by
    unfold KNtrain
    rw [if_pos ?hc1]
    case hc1 => exact ⟨le_refl g1, rfl⟩
    dsimp only
    rw [if_pos ?hc2]
    case hc2 => rfl
    have hcl : ∃ vm, FMcluster P
        (FMupdate (plainA P n m0 g1 g2 lr hr nrm prec qz obs g1).FM (obs g1))
        (((plainA P n m0 g1 g2 lr hr nrm prec qz obs g1).m : Int)) = Except.ok vm := by
      unfold FMcluster
      rw [if_neg ?hcn]
      case hcn =>
        rw [show (FMupdate (plainA P n m0 g1 g2 lr hr nrm prec qz obs g1).FM (obs g1)).n
            = (fmIter (corClustInit n) obs g1).n from rfl, fmIter_n]
        show ¬ (n < 2)
        omega
      exact ⟨_, rfl⟩
    obtain ⟨vm, hvm⟩ := hcl
    rw [hvm]
    exact ⟨_, rfl, ⟨rfl, rfl, rfl, ⟨vm, rfl⟩, ⟨_, rfl⟩, rfl⟩⟩
  obtain ⟨s', htr, hgood⟩ := hok
  refine ⟨s', ?_, hgood, ?_⟩
  · rw [stateAfter_step P obs _ g1 _
        (A_run P n m0 g1 g2 lr hr nrm prec qz obs g1 (le_refl g1)),
      KNprocess_train_eq P _ (obs g1) _ (by show ¬ (g1 + g2 < g1); omega) htr]
    rfl
  · rw [scoreAt_eq P obs _ g1 _
        (A_run P n m0 g1 g2 lr hr nrm prec qz obs g1 (le_refl g1)),
      KNprocess_train_eq P _ (obs g1) _ (by show ¬ (g1 + g2 < g1); omega) htr]
    rfl

/-- C2 (amended: the threshold comparison is strict, so the window is one
call longer than the claim states, and `AD_grace ≥ 1` is required).  For an
engine built without a preset feature map over `n ≥ 2` features with
`AD_grace ≥ 1`, every one of the first `FM_grace + AD_grace + 1` calls
trains and returns `0`; the `(FM_grace + AD_grace + 2)`-th call is the first
to take the execute path, returning a nonnegative score (nonnegative
whenever the `sqrt` primitive preserves nonnegativity) and leaving
`n_executed = 1`.  The `AD_grace ≥ 1` bound matters: it guarantees every
autoencoder has trained — and so has all its normalization bounds set —
before the first execute call; at `AD_grace = 0` the program would normalize
never-trained autoencoders against their `±inf` initial bounds and the first
execute call would return NaN rather than a nonnegative score, a case exact
rational arithmetic cannot express (see `normApply`). -/
theorem plain_lifecycle (P : Prims) (n : ℕ) (m0 : Int) (g1 g2 : ℕ) (lr hr : ℚ)
    (nrm : Bool) (prec : Option ℕ) (qz : Option (ℕ × ℕ)) (obs : ℕ → ℕ → ℚ)
    (hn : 2 ≤ n) (hg2 : 1 ≤ g2) (hsq : ∀ q : ℚ, 0 ≤ q → 0 ≤ P.sqrt q) :
    (∀ k, k ≤ g1 + g2 →
      scoreAt P obs (mkPlain P n m0 g1 g2 lr hr nrm prec qz) k = Except.ok 0) ∧
    (∃ sc, scoreAt P obs (mkPlain P n m0 g1 g2 lr hr nrm prec qz) (g1 + g2 + 1)
        = Except.ok sc ∧ 0 ≤ sc) ∧
    (stateAfter P obs (mkPlain P n m0 g1 g2 lr hr nrm prec qz) (g1 + g2 + 2)).map
        KitState.n_executed = Except.ok 1 := by
  obtain ⟨sT, hsT, hgT, hscT⟩ := AtoS1 P n m0 g1 g2 lr hr nrm prec qz obs hn
  have hstate : ∀ k, g1 + 1 ≤ k → k ≤ g1 + g2 + 1 →
      ∃ s, stateAfter P obs (mkPlain P n m0 g1 g2 lr hr nrm prec qz) k = Except.ok s ∧
        S1Good g1 g2 s k := by
    intro k hk1 hk2
    obtain ⟨s, h1, h2, -⟩ := S1_run P obs (mkPlain P n m0 g1 g2 lr hr nrm prec qz)
      g1 g2 (k - (g1 + 1)) (g1 + 1) sT hsT hgT (by omega)
    rw [show g1 + 1 + (k - (g1 + 1)) = k by omega] at h1 h2
    exact ⟨s, h1, h2⟩
  refine ⟨?_, ?_, ?_⟩
  · intro k hk
    by_cases hcase : k ≤ g1
    · by_cases heq : k = g1
      · subst heq
        exact hscT
      · exact A_score P n m0 g1 g2 lr hr nrm prec qz obs k hcase heq
    · obtain ⟨s, hs, hg⟩ := hstate k (by omega) (by omega)
      obtain ⟨s', hstep, -, -⟩ := S1_step P g1 g2 s (obs k) k hg hk
      rw [scoreAt_eq P obs _ k s hs, hstep]
      rfl
  · obtain ⟨s, hs, hg⟩ := hstate (g1 + g2 + 1) (by omega) (le_refl _)
    obtain ⟨hfg, hag, hnt, ⟨vm, hv⟩, ⟨out, hout⟩, hne⟩ := hg
    have hex := KNexecute_ok P s (obs (g1 + g2 + 1)) vm out hv hout
    have hp : KNprocess P s (obs (g1 + g2 + 1)) = KNexecute P s (obs (g1 + g2 + 1)) :=
      KNprocess_exec_eq P s _ (by rw [hfg, hag, hnt]; omega)
    refine ⟨AEexecute P out (fun a =>
        (List.zipWith (fun ae idxs => AEexecute P ae (subVec (obs (g1 + g2 + 1)) idxs))
          s.ensembleLayer vm).getD a 0), ?_, ?_⟩
    · rw [scoreAt_eq P obs _ (g1 + g2 + 1) s hs, hp, hex]
      rfl
    · exact AEexecute_nonneg P out _ hsq
  · obtain ⟨s, hs, hg⟩ := hstate (g1 + g2 + 1) (by omega) (le_refl _)
    obtain ⟨hfg, hag, hnt, ⟨vm, hv⟩, ⟨out, hout⟩, hne⟩ := hg
    have hex := KNexecute_ok P s (obs (g1 + g2 + 1)) vm out hv hout
    have hp : KNprocess P s (obs (g1 + g2 + 1)) = KNexecute P s (obs (g1 + g2 + 1)) :=
      KNprocess_exec_eq P s _ (by rw [hfg, hag, hnt]; omega)
    rw [stateAfter_step P obs _ (g1 + g2 + 1) s hs, hp, hex]
    exact congrArg Except.ok (by rw [hne])

/-- C2 witness: with both grace periods `1` the theorem instantiates at the
concrete engine and stream; the first call returns `0`. -/
theorem plain_lifecycle_witness :
    scoreAt P0 oneObs (mkPlain P0 2 10 1 1 0 1 false none none) 0 = Except.ok 0 :=
  (plain_lifecycle P0 2 10 1 1 0 1 false none none oneObs (by decide) (by decide)
    (fun q hq => hq)).1 0 (by omega)

/-- C2 counterexample to the claim as stated: with `FM_grace = 1` and
`AD_grace = 1` the claim predicts that the third call (index 2) already
executes; in fact it still trains — its score is `0` and after three calls
`n_executed` is still `0` (the strict comparison `n_trained > FM + AD`
delays the first execute call to call 4). -/
theorem plain_lifecycle_counterexample :
    scoreAt P0 oneObs engC2 2 = Except.ok 0 ∧
    (stateAfter P0 oneObs engC2 3).map KitState.n_executed = Except.ok 0 := ⟨rfl, rfl⟩

/-- C3 counterexample to the claim as stated: with the preset map
`[[0], [1]]`, `FM_grace = 5` and `AD_grace = 1` the claim predicts that call
`AD_grace + 1 = 2` (index 1) already returns an execute score; in fact it
trains — score `0`, and after two calls `n_executed` is still `0`. -/
theorem preset_map_lifecycle_counterexample :
    scoreAt P0 oneObs engC3 1 = Except.ok 0 ∧
    (stateAfter P0 oneObs engC3 2).map KitState.n_executed = Except.ok 0 := ⟨rfl, rfl⟩
